import Mathlib

/-!
Verification of the `rfcs` proposal-numbering tool (src/main.rs, src/git.rs).

The Rust sources are shallowly embedded below:

* Filesystem paths (`std::path::Path`) are modelled as their list of normal
  components (`FsPath`); `file_name` / `extension` / `to_string_lossy`
  follow the documented std behaviour on such paths.  All modelled strings
  are valid UTF-8 (`String`); the lossy conversion is therefore the identity
  on components joined with "/".
* The compiled regex `(?<rfc_number>\d{3,})` uses the regex crate's
  default Unicode-aware `\d`, the decimal-digit class `\p{Nd}`
  (`isNdDigit` below, from the UCD general-category tables as shipped
  with regex-syntax, Unicode 15.0).  `file_has_rfc_id`'s `is_match` is
  embedded over that class (`firstRun3Nd`: leftmost match, extended
  greedily).  `next_rfc_number` feeds the same pattern's match into
  `parse::<usize>().expect(..)`, which panics on any non-ASCII digit;
  whenever the program returns normally, the parsed match is exactly the
  leftmost maximal run of 3+ ASCII digits (an all-ASCII leftmost `\p{Nd}`
  match has no Nd neighbours, hence no ASCII-digit neighbours, and every
  earlier Nd run — so every earlier ASCII run — is shorter than 3).  The
  allocator's extraction is therefore embedded as that ASCII run
  (`firstRun3`), exact on every normally-terminating run.
* `usize` values are modelled as `Nat` (RFC ids are small decimal numbers;
  overflow does not arise on the inputs the program accepts).
* The `walkdir` iterator is modelled by the list of items it yields: each
  item is `Except String FsPath`, an `Ok` entry or an error (unreadable
  root directories and unreadable entries are both yielded as `Except.error`
  items by `walkdir`).
* git2 is modelled by `GitRepo` (local branches with their target commit,
  HEAD, checked-out tree).  `Repository::find_branch` on a missing branch
  fails with `ErrorCode::NotFound`, branch creation with `force = false` on
  an existing name fails with `ErrorCode::Exists`, as git2 documents.
  Whether the safe checkout succeeds depends on the working tree, which is
  outside the embedded state; it enters as the boolean `checkoutOk`.
-/

namespace Rfcs

/-- A filesystem path, as its list of normal components
(what `walkdir` yields after joining the root with the entry names). -/
structure FsPath where
  components : List String
deriving DecidableEq

/-- `Path::file_name`: the last component, unless it is `..` (std returns
`None` for a path terminating in `..`) or the path is empty. -/
def pathFileName? (p : FsPath) : Option String :=
  match p.components.getLast? with
  | some c => if c = ".." then none else some c
  | none => none

/-- The characters after the last `'.'` of a list, if any. -/
def afterLastDot : List Char → Option (List Char)
  | [] => none
  | c :: rest =>
    match afterLastDot rest with
    | some e => some e
    | none => if c = '.' then some rest else none

/-- `Path::extension`: the portion of the file name after its last `'.'`;
none when there is no dot or the only dot is the leading character
(hidden files such as `.gitignore` have no extension in std). -/
def pathExtension? (p : FsPath) : Option String :=
  match pathFileName? p with
  | none => none
  | some name =>
    match name.data with
    | [] => none
    | _ :: rest =>
      match afterLastDot rest with
      | some e => some (String.mk e)
      | none => none

/-- `Path::to_string_lossy` on a path of UTF-8 components:
the components joined with `'/'`. -/
def pathToString (p : FsPath) : String :=
  match p.components with
  | [] => ""
  | c :: rest => rest.foldl (fun acc comp => acc ++ "/" ++ comp) c

/-- The digit run `next_rfc_number` parses on the program's
normally-terminating runs: the leftmost maximal run of 3+ ASCII digits.
The pattern's `\d` is `\p{Nd}`, but a match holding a non-ASCII digit
makes `parse::<usize>().expect(..)` panic before any id is returned, and
when the match is all-ASCII it coincides with this run (see the header
note); so over every run that returns, this is the extraction performed. -/
def firstRun3 : List Char → Option (List Char)
  | [] => none
  | c :: rest =>
    let run := (c :: rest).takeWhile Char.isDigit
    if 3 ≤ run.length then some run else firstRun3 rest

/-- `str::parse::<usize>` on a string of ASCII digits, as a `Nat`. -/
def digitsToNat (l : List Char) : Nat :=
  l.foldl (fun acc c => 10 * acc + (c.toNat - 48)) 0

/-- The id the Number Allocator extracts from one string: the first run of
3+ consecutive digits, parsed; `none` when the regex does not match
(main.rs 143-163, the `filter_map` body of `next_rfc_number`). -/
def extractRfcNumber (s : String) : Option Nat :=
  (firstRun3 s.data).map digitsToNat

/-- main.rs `file_is_text_document`: the extension is one of the fixed
allow-list, by exact (case-sensitive) match. -/
def file_is_text_document (f : FsPath) : Bool :=
  match pathExtension? f with
  | some e =>
    (e == "txt") || (e == "md") || (e == "markdown") || (e == "rst") ||
      (e == "adoc") || (e == "org")
  | none => false

/-- The code-point ranges (inclusive) of Unicode general category Nd
(Decimal_Number), Unicode 15.0 — the class the regex crate's default
`\d` matches (regex-syntax UCD tables). -/
def ndRanges : List (Nat × Nat) :=
  [(0x0030, 0x0039), (0x0660, 0x0669), (0x06F0, 0x06F9),
    (0x07C0, 0x07C9), (0x0966, 0x096F), (0x09E6, 0x09EF),
    (0x0A66, 0x0A6F), (0x0AE6, 0x0AEF), (0x0B66, 0x0B6F),
    (0x0BE6, 0x0BEF), (0x0C66, 0x0C6F), (0x0CE6, 0x0CEF),
    (0x0D66, 0x0D6F), (0x0DE6, 0x0DEF), (0x0E50, 0x0E59),
    (0x0ED0, 0x0ED9), (0x0F20, 0x0F29), (0x1040, 0x1049),
    (0x1090, 0x1099), (0x17E0, 0x17E9), (0x1810, 0x1819),
    (0x1946, 0x194F), (0x19D0, 0x19D9), (0x1A80, 0x1A89),
    (0x1A90, 0x1A99), (0x1B50, 0x1B59), (0x1BB0, 0x1BB9),
    (0x1C40, 0x1C49), (0x1C50, 0x1C59), (0xA620, 0xA629),
    (0xA8D0, 0xA8D9), (0xA900, 0xA909), (0xA9D0, 0xA9D9),
    (0xA9F0, 0xA9F9), (0xAA50, 0xAA59), (0xABF0, 0xABF9),
    (0xFF10, 0xFF19), (0x104A0, 0x104A9), (0x10D30, 0x10D39),
    (0x11066, 0x1106F), (0x110F0, 0x110F9), (0x11136, 0x1113F),
    (0x111D0, 0x111D9), (0x112F0, 0x112F9), (0x11450, 0x11459),
    (0x114D0, 0x114D9), (0x11650, 0x11659), (0x116C0, 0x116C9),
    (0x11730, 0x11739), (0x118E0, 0x118E9), (0x11950, 0x11959),
    (0x11C50, 0x11C59), (0x11D50, 0x11D59), (0x11DA0, 0x11DA9),
    (0x11F50, 0x11F59), (0x16A60, 0x16A69), (0x16AC0, 0x16AC9),
    (0x16B50, 0x16B59), (0x1D7CE, 0x1D7FF), (0x1E140, 0x1E149),
    (0x1E2F0, 0x1E2F9), (0x1E4F0, 0x1E4F9), (0x1E950, 0x1E959),
    (0x1FBF0, 0x1FBF9)]

/-- Membership in `\p{Nd}`: what one character of the regex crate's
default `\d` accepts. -/
def isNdDigit (c : Char) : Bool :=
  ndRanges.any fun r => decide (r.1 ≤ c.toNat) && decide (c.toNat ≤ r.2)

/-- The leftmost match of the compiled regex `\d{3,}` with its
Unicode-aware `\d` (main.rs `RFC_REGEX_PATTERN`): at the first position
where three consecutive `\p{Nd}` digits start, the maximal digit run from
that position.  `Regex::is_match` is `Option.isSome` of this. -/
def firstRun3Nd : List Char → Option (List Char)
  | [] => none
  | c :: rest =>
    let run := (c :: rest).takeWhile isNdDigit
    if 3 ≤ run.length then some run else firstRun3Nd rest

/-- main.rs `file_has_rfc_id`: the regex `\d{3,}` matches the file name
(`\d` being the Unicode decimal-digit class `\p{Nd}`). -/
def file_has_rfc_id (f : FsPath) : Bool :=
  match pathFileName? f with
  | some name => (firstRun3Nd name.data).isSome
  | none => false

/-- main.rs `files_in_rfc_repo`, over the items the `walkdir` iterator
yields: `Err` items are logged and dropped by the `filter_map`, the `Ok`
paths are filtered by `file_is_text_document` and `file_has_rfc_id`, and
the function returns `Ok` of the result (its body ends in `Ok(res)`). -/
def files_in_rfc_repo (walk : List (Except String FsPath)) :
    Except String (List FsPath) :=
  Except.ok
    (((walk.filterMap fun entry =>
        match entry with
        | .ok p => some p
        | .error _ => none).filter
      fun f => file_is_text_document f).filter
      fun f => file_has_rfc_id f)

/-- main.rs `next_rfc_number`: map the files to their lossy path strings,
chain the branch names, extract ids with the RFC regex (dropping strings
with no match), fold with `max` from accumulator 1, then add one. -/
def next_rfc_number (git_branches : List String) (rfcs_in_repo : List FsPath) :
    Nat :=
  ((rfcs_in_repo.map pathToString ++ git_branches).filterMap
      extractRfcNumber).foldl (fun acc num => max acc num) 1 + 1

/-- Decimal digits of `n`, most significant first, accumulator style;
structural in the fuel so that the kernel can evaluate it. -/
def natReprCore : Nat → Nat → List Char → List Char
  | 0, _, acc => acc
  | fuel + 1, n, acc =>
    if n < 10 then Nat.digitChar n :: acc
    else natReprCore fuel (n / 10) (Nat.digitChar (n % 10) :: acc)

/-- The decimal representation of `n` (Rust's `Display` for `usize`). -/
def natRepr (n : Nat) : List Char :=
  natReprCore (n + 1) n []

/-- The `{:03}` format specifier: the decimal representation left-padded
with `'0'` to at least three characters. -/
def formatId3 (n : Nat) : List Char :=
  List.replicate (3 - (natRepr n).length) '0' ++ natRepr n

/-- main.rs 125 `title.replace(' ', "-")`: every space becomes a hyphen. -/
def replaceSpaces (s : String) : String :=
  String.mk (s.data.map fun c => if c = ' ' then '-' else c)

/-- main.rs 125 `.replace([',', '.', '?', '!'], "")`: those four
characters are removed. -/
def removePunct (s : String) : String :=
  String.mk (s.data.filter fun c =>
    !(c == ',' || c == '.' || c == '?' || c == '!'))

/-- The branch name `cmd_create` builds (main.rs 122-126):
`format!("{:03}-{}", next_rfc, title.replace(' ', "-").replace([',', '.', '?', '!'], ""))`. -/
def cmd_create_branch_name (next_rfc : Nat) (title : String) : String :=
  String.mk (formatId3 next_rfc) ++ "-" ++ removePunct (replaceSpaces title)

/-- The errors the embedded git.rs operations distinguish.  `notFound` and
`alreadyExists` are the git2 `ErrorCode`s the source inspects or triggers;
the other constructors stand for the anyhow errors the source builds
(`bail!` / `with_context`) on each failure path. -/
inductive GitErr
  /-- git2 `ErrorCode::NotFound` (a looked-up branch does not exist). -/
  | notFound
  /-- git2 `ErrorCode::Exists` (branch creation with `force = false`
  found the name taken). -/
  | alreadyExists
  /-- git.rs 86-87: the context "Neither 'main' nor 'master' are valid
  references in the specified git repo." -/
  | noMainBranch
  /-- git.rs 90: `bail!("Unexpected git error: {}", e)`. -/
  | unexpectedGit
  /-- git.rs 58: `bail!("Error while checking out tree: {}", e)`. -/
  | checkoutFailed
deriving DecidableEq

/-- The git repository state the embedded git.rs operations touch: the
local branches (short name, target commit), HEAD, and the commit whose
tree the working directory has checked out. -/
structure GitRepo where
  branches : List (String × Nat)
  headRef : Option String
  worktree : Nat
deriving DecidableEq

/-- git2 `Repository::find_branch(name, BranchType::Local)`: the branch
with that short name, or an error with `ErrorCode::NotFound`. -/
def find_branch (repo : GitRepo) (name : String) :
    Except GitErr (String × Nat) :=
  match repo.branches.find? (fun b => b.1 == name) with
  | some b => Except.ok b
  | none => Except.error GitErr.notFound

/-- git.rs `find_main_branch_head`: look up `main`; on success use it; on
an error whose code is `ErrorCode::Exists` fall back to `master` (wrapping
a failure there in the "Neither 'main' nor 'master'" context); on any
other error code bail with "Unexpected git error".  (A branch target
stands for the reference peeled to its commit.) -/
def find_main_branch_head (repo : GitRepo) : Except GitErr (String × Nat) :=
  match find_branch repo "main" with
  | Except.ok branch => Except.ok branch
  | Except.error e =>
    if e = GitErr.alreadyExists then
      match find_branch repo "master" with
      | Except.ok branch => Except.ok branch
      | Except.error _ => Except.error GitErr.noMainBranch
    else Except.error GitErr.unexpectedGit

/-- git.rs `create_and_switch_to_branch`: find the main-line head, create
the branch with `force = false` (git2 fails with `ErrorCode::Exists` when
the name is taken), check out its tree with the safe policy (whether the
working tree allows this is the environment flag `checkoutOk`; on failure
the source bails, leaving the just-created ref in place), then point HEAD
at the new branch.  The repository state after the call is returned
alongside the result, since the on-disk state persists across failures. -/
def create_and_switch_to_branch (checkoutOk : Bool) (repo : GitRepo)
    (branch_name : String) : Except GitErr Unit × GitRepo :=
  match find_main_branch_head repo with
  | Except.error e => (Except.error e, repo)
  | Except.ok (_, commit) =>
    if repo.branches.any (fun b => b.1 == branch_name) then
      (Except.error GitErr.alreadyExists, repo)
    else
      let repo1 : GitRepo :=
        { repo with branches := repo.branches ++ [(branch_name, commit)] }
      if checkoutOk then
        (Except.ok (),
          { repo1 with worktree := commit, headRef := some branch_name })
      else (Except.error GitErr.checkoutFailed, repo1)

/-- One entry of git2's branch iterator, as git.rs `list_branches`
consumes it: an enumeration error, or a branch whose `name()` decoded to
UTF-8 (`some`) or did not (`none`, git2's `Ok(None)` case). -/
structure BranchEnt where
  utf8Name : Option String
deriving DecidableEq

/-- git.rs `list_branches`: enumeration errors are logged and dropped by
the `filter_map`; each remaining branch contributes its decoded name, with
`unwrap_or` substituting the sentinel for a name that was not UTF-8. -/
def list_branches (entries : List (Except String BranchEnt)) : List String :=
  (entries.filterMap fun r =>
    match r with
    | Except.ok branch => some branch.utf8Name
    | Except.error _ => none).map
    (fun branch_name => branch_name.getD "<invalid utf-8 branch name>")

/-! ## Helper lemmas -/

theorem string_data_append (s t : String) : (s ++ t).data = s.data ++ t.data :=
  rfl

theorem foldl_max_init (l : List Nat) :
    ∀ a : Nat, a ≤ l.foldl (fun acc num => max acc num) a := by
  induction l with
  | nil => intro a; exact le_refl a
  | cons y t ih =>
    intro a
    exact le_trans (le_max_left a y) (ih (max a y))

theorem le_foldl_max {l : List Nat} {x : Nat} (h : x ∈ l) :
    ∀ a : Nat, x ≤ l.foldl (fun acc num => max acc num) a := by
  induction l with
  | nil => cases h
  | cons y t ih =>
    intro a
    rcases List.mem_cons.mp h with rfl | hx
    · exact le_trans (le_max_right a x) (foldl_max_init t (max a x))
    · exact ih hx (max a y)

theorem foldl_max_le {l : List Nat} {m : Nat} (hall : ∀ x ∈ l, x ≤ m) :
    ∀ a : Nat, a ≤ m → l.foldl (fun acc num => max acc num) a ≤ m := by
  induction l with
  | nil => intro a ha; exact ha
  | cons y t ih =>
    intro a ha
    exact ih (fun x hx => hall x (List.mem_cons_of_mem y hx))
      (max a y) (max_le ha (hall y (List.mem_cons_self y t)))

theorem foldl_max_shift (l : List Nat) :
    ∀ a : Nat,
      l.foldl (fun acc num => max acc num) a =
        max a (l.foldl (fun acc num => max acc num) 0) := by
  induction l with
  | nil => intro a; simp
  | cons y t ih =>
    intro a
    show t.foldl _ (max a y) = max a (t.foldl _ (max 0 y))
    rw [ih (max a y), ih (max 0 y), Nat.zero_max, max_assoc]

theorem natReprCore_acc (fuel : Nat) :
    ∀ (n : Nat) (acc : List Char),
      natReprCore fuel n acc = natReprCore fuel n [] ++ acc := by
  induction fuel with
  | zero => intro n acc; rfl
  | succ f ih =>
    intro n acc
    by_cases h : n < 10
    · simp [natReprCore, h]
    · simp only [natReprCore, if_neg h]
      rw [ih (n / 10) (Nat.digitChar (n % 10) :: acc),
          ih (n / 10) [Nat.digitChar (n % 10)]]
      simp

theorem natReprCore_fuel (f1 : Nat) :
    ∀ (f2 n : Nat) (acc : List Char), n < f1 → n < f2 →
      natReprCore f1 n acc = natReprCore f2 n acc := by
  induction f1 with
  | zero => intro f2 n acc h1 h2; omega
  | succ g ih =>
    intro f2 n acc h1 h2
    cases f2 with
    | zero => omega
    | succ h =>
      by_cases hn : n < 10
      · simp [natReprCore, hn]
      · simp only [natReprCore, if_neg hn]
        have hdiv : n / 10 < n := Nat.div_lt_self (by omega) (by omega)
        exact ih h (n / 10) _ (by omega) (by omega)

theorem natRepr_eq (n : Nat) :
    natRepr n =
      if n < 10 then [Nat.digitChar n]
      else natRepr (n / 10) ++ [Nat.digitChar (n % 10)] := by
  by_cases h : n < 10
  · simp [natRepr, natReprCore, h]
  · simp only [natRepr, natReprCore, if_neg h]
    have hdiv : n / 10 < n := Nat.div_lt_self (by omega) (by omega)
    rw [natReprCore_fuel n (n / 10 + 1) (n / 10) _ (by omega) (by omega)]
    exact natReprCore_acc (n / 10 + 1) (n / 10) [Nat.digitChar (n % 10)]

theorem natRepr_ne_nil (n : Nat) : natRepr n ≠ [] := by
  rw [natRepr_eq]
  split <;> simp

theorem natRepr_length_pos (n : Nat) : 1 ≤ (natRepr n).length := by
  have h := natRepr_ne_nil n
  cases hrep : natRepr n with
  | nil => exact absurd hrep h
  | cons c t => simp

theorem natRepr_head_ne_zero :
    ∀ n : Nat, 1 ≤ n → ∀ (c : Char) (l : List Char),
      natRepr n = c :: l → c ≠ '0' := by
  intro n
  induction n using Nat.strong_induction_on with
  | _ n ih =>
    intro h1 c l heq
    rw [natRepr_eq] at heq
    by_cases hn : n < 10
    · rw [if_pos hn] at heq
      have hc : c = Nat.digitChar n := by
        injection heq with h' _
        exact h'.symm
      subst hc
      interval_cases n <;> decide
    · rw [if_neg hn] at heq
      cases hrep : natRepr (n / 10) with
      | nil => exact absurd hrep (natRepr_ne_nil (n / 10))
      | cons c' l' =>
        rw [hrep, List.cons_append] at heq
        injection heq with hcc _
        subst hcc
        exact ih (n / 10) (Nat.div_lt_self (by omega) (by omega))
          (by omega) c' l' hrep

theorem natRepr_lt10 {n : Nat} (h : n < 10) :
    natRepr n = [Nat.digitChar n] := by
  rw [natRepr_eq, if_pos h]

theorem natRepr_len2 {n : Nat} (h1 : 10 ≤ n) (h2 : n < 100) :
    natRepr n = [Nat.digitChar (n / 10), Nat.digitChar (n % 10)] := by
  rw [natRepr_eq, if_neg (by omega), natRepr_lt10 (by omega)]
  rfl

theorem natRepr_len_ge3 {n : Nat} (h : 100 ≤ n) : 3 ≤ (natRepr n).length := by
  rw [natRepr_eq, if_neg (by omega), List.length_append]
  have h2 : 2 ≤ (natRepr (n / 10)).length := by
    rw [natRepr_eq, if_neg (by omega), List.length_append]
    have := natRepr_length_pos (n / 10 / 10)
    simp only [List.length_cons, List.length_nil]
    omega
  simp only [List.length_cons, List.length_nil]
  omega

theorem formatId3_lt10 {n : Nat} (h : n < 10) :
    formatId3 n = ['0', '0', Nat.digitChar n] := by
  rw [formatId3, natRepr_lt10 h]
  rfl

theorem formatId3_mid {n : Nat} (h1 : 10 ≤ n) (h2 : n < 100) :
    formatId3 n = ['0', Nat.digitChar (n / 10), Nat.digitChar (n % 10)] := by
  rw [formatId3, natRepr_len2 h1 h2]
  rfl

theorem formatId3_ge100 {n : Nat} (h : 100 ≤ n) : formatId3 n = natRepr n := by
  rw [formatId3]
  have := natRepr_len_ge3 h
  rw [show 3 - (natRepr n).length = 0 by omega]
  rfl

theorem takeWhile_nodigits {ys : List Char}
    (h : ∀ c ∈ ys, c.isDigit = false) :
    ys.takeWhile Char.isDigit = [] := by
  cases ys with
  | nil => rfl
  | cons y t =>
    rw [List.takeWhile_cons, h y (List.mem_cons_self y t)]
    rfl

theorem takeWhile_append_nodigits (xs : List Char) {ys : List Char}
    (h : ∀ c ∈ ys, c.isDigit = false) :
    (xs ++ ys).takeWhile Char.isDigit = xs.takeWhile Char.isDigit := by
  induction xs with
  | nil => exact takeWhile_nodigits h
  | cons x t ih =>
    rw [List.cons_append, List.takeWhile_cons, List.takeWhile_cons]
    cases hx : x.isDigit
    · rfl
    · rw [ih]

theorem firstRun3_nodigits {ys : List Char}
    (h : ∀ c ∈ ys, c.isDigit = false) : firstRun3 ys = none := by
  induction ys with
  | nil => rfl
  | cons y t ih =>
    rw [firstRun3]
    simp only [takeWhile_nodigits h]
    exact ih fun c hc => h c (List.mem_cons_of_mem y hc)

theorem firstRun3_append_nodigits (xs : List Char) {ys : List Char}
    (h : ∀ c ∈ ys, c.isDigit = false) :
    firstRun3 (xs ++ ys) = firstRun3 xs := by
  induction xs with
  | nil => exact firstRun3_nodigits h
  | cons x t ih =>
    rw [List.cons_append, firstRun3, firstRun3]
    simp only [← List.cons_append, takeWhile_append_nodigits (x :: t) h]
    split
    · rfl
    · exact ih

theorem takeWhile_length_of_nd {l2 : List Char}
    (h : ∀ c ∈ l2, isNdDigit c = true) (l3 : List Char) :
    l2.length ≤ ((l2 ++ l3).takeWhile isNdDigit).length := by
  induction l2 with
  | nil => simp
  | cons d t ih =>
    have hd := h d (List.mem_cons_self d t)
    have ht := ih fun c hc => h c (List.mem_cons_of_mem d hc)
    simp only [List.cons_append, List.takeWhile_cons, hd, if_true,
      List.length_cons]
    simp only [List.cons_append] at ht
    omega

theorem firstRun3Nd_isSome_iff (l : List Char) :
    (firstRun3Nd l).isSome = true ↔
      ∃ l1 l2 l3 : List Char, l = l1 ++ l2 ++ l3 ∧ 3 ≤ l2.length ∧
        ∀ c ∈ l2, isNdDigit c = true := by
  constructor
  · intro h
    induction l with
    | nil => simp [firstRun3Nd] at h
    | cons c rest ih =>
      rw [firstRun3Nd] at h
      by_cases hrun : 3 ≤ ((c :: rest).takeWhile isNdDigit).length
      · refine ⟨[], (c :: rest).takeWhile isNdDigit,
          (c :: rest).dropWhile isNdDigit, ?_, hrun, ?_⟩
        · rw [List.nil_append, List.takeWhile_append_dropWhile]
        · intro x hx
          exact List.mem_takeWhile_imp hx
      · rw [if_neg hrun] at h
        obtain ⟨l1, l2, l3, heq, hlen, hdig⟩ := ih h
        exact ⟨c :: l1, l2, l3, by simp [heq], hlen, hdig⟩
  · rintro ⟨l1, l2, l3, rfl, hlen, hdig⟩
    induction l1 with
    | nil =>
      cases l2 with
      | nil => simp at hlen
      | cons d t =>
        have hge : 3 ≤ ((d :: (t ++ l3)).takeWhile isNdDigit).length := by
          have h2 := takeWhile_length_of_nd hdig l3
          simp only [List.cons_append] at h2
          simp only [List.length_cons] at hlen h2
          omega
        simp only [List.nil_append, List.cons_append, firstRun3Nd,
          List.append_eq]
        rw [if_pos hge]
        rfl
    | cons x t ih =>
      simp only [List.cons_append, firstRun3Nd, List.append_eq]
      split
      · rfl
      · simpa only [List.cons_append] using ih

theorem cmd_create_branch_name_data (n : Nat) (t : String) :
    (cmd_create_branch_name n t).data =
      formatId3 n ++ '-' :: (removePunct (replaceSpaces t)).data := by
  simp [cmd_create_branch_name, string_data_append]

theorem take4_formatId3 {n : Nat} (h2 : 2 ≤ n) (rest : List Char) :
    List.take 4 (formatId3 n ++ '-' :: rest) ≠ ['0', '0', '0', '-'] ∧
    List.take 4 (formatId3 n ++ '-' :: rest) ≠ ['0', '0', '1', '-'] := by
  rcases Nat.lt_or_ge n 10 with h10 | h10
  · rw [formatId3_lt10 h10]
    have hd : Nat.digitChar n ≠ '0' ∧ Nat.digitChar n ≠ '1' := by
      interval_cases n <;> exact ⟨by decide, by decide⟩
    have htake : List.take 4 (['0', '0', Nat.digitChar n] ++ '-' :: rest)
        = ['0', '0', Nat.digitChar n, '-'] := rfl
    constructor
    · intro heq
      rw [htake] at heq
      simp only [List.cons.injEq, and_true] at heq
      exact hd.1 (by tauto)
    · intro heq
      rw [htake] at heq
      simp only [List.cons.injEq, and_true] at heq
      exact hd.2 (by tauto)
  rcases Nat.lt_or_ge n 100 with h100 | h100
  · rw [formatId3_mid h10 h100]
    have hd1 : Nat.digitChar (n / 10) ≠ '0' := by
      have hq1 : 1 ≤ n / 10 := by omega
      have hq9 : n / 10 ≤ 9 := by omega
      set q := n / 10
      interval_cases q <;> decide
    have htake : List.take 4
          (['0', Nat.digitChar (n / 10), Nat.digitChar (n % 10)] ++ '-' :: rest)
        = ['0', Nat.digitChar (n / 10), Nat.digitChar (n % 10), '-'] := rfl
    constructor
    · intro heq
      rw [htake] at heq
      simp only [List.cons.injEq, and_true] at heq
      exact hd1 (by tauto)
    · intro heq
      rw [htake] at heq
      simp only [List.cons.injEq, and_true] at heq
      exact hd1 (by tauto)
  · cases hrep : natRepr n with
    | nil => exact absurd hrep (natRepr_ne_nil n)
    | cons c t =>
      have hc := natRepr_head_ne_zero n (by omega) c t hrep
      rw [formatId3_ge100 h100, hrep]
      have htake : List.take 4 ((c :: t) ++ '-' :: rest)
          = c :: List.take 3 (t ++ '-' :: rest) := rfl
      constructor
      · intro heq
        rw [htake] at heq
        injection heq with h1 _
        exact hc h1
      · intro heq
        rw [htake] at heq
        injection heq with h1 _
        exact hc h1

/-- Claim C1: the id `next_rfc_number` returns is strictly greater than
every id extractable (first run of 3+ consecutive decimal digits) from any
of the file-path strings or branch-name strings it was given. -/
theorem next_rfc_number_gt_extracted
    (git_branches : List String) (rfcs_in_repo : List FsPath)
    (s : String) (n : Nat)
    (hs : s ∈ rfcs_in_repo.map pathToString ++ git_branches)
    (hn : extractRfcNumber s = some n) :
    n < next_rfc_number git_branches rfcs_in_repo := by
  have hmem : n ∈ (rfcs_in_repo.map pathToString ++ git_branches).filterMap
      extractRfcNumber :=
    List.mem_filterMap.mpr ⟨s, hs, hn⟩
  have h := le_foldl_max hmem 1
  simp only [next_rfc_number]
  omega

/-- Witness for C1 at a concrete repository: branch "017-c" carries id 17
and the allocator returns a strictly larger id. -/
theorem next_rfc_number_gt_extracted_witness :
    extractRfcNumber "017-c" = some 17 ∧
      17 < next_rfc_number ["017-c", "main"] [⟨["000-a.md"]⟩] :=
  ⟨by decide,
    next_rfc_number_gt_extracted ["017-c", "main"] [⟨["000-a.md"]⟩]
      "017-c" 17 (by decide) (by decide)⟩

/-- Counterexample to claim C2 as stated: with the single branch name
"000-a" the one observed id is 0, so "one past the maximum id observed"
would be 1, yet `next_rfc_number` returns 2 (the fold starts at 1). -/
theorem next_rfc_number_id_zero_counterexample :
    (List.map pathToString ([] : List FsPath) ++ ["000-a"]).filterMap
        extractRfcNumber = [0] ∧
      next_rfc_number ["000-a"] [] = 2 := by
  decide

/-- Claim C2 as amended: the allocator returns the larger of 2 and one
past the maximum id observed (so 2 when nothing is observed, or when every
observed id is 0); on the spec's example the allocated id is 42. -/
theorem next_rfc_number_max_formula :
    (∀ (git_branches : List String) (rfcs_in_repo : List FsPath),
      next_rfc_number git_branches rfcs_in_repo =
        max 2 (((rfcs_in_repo.map pathToString ++ git_branches).filterMap
          extractRfcNumber).foldl (fun acc num => max acc num) 0 + 1)) ∧
    next_rfc_number [] [] = 2 ∧
    next_rfc_number ["017-c", "main"] [⟨["000-a.md"]⟩, ⟨["041-b.txt"]⟩]
      = 42 := by
  refine ⟨fun git_branches rfcs_in_repo => ?_, by decide, by decide⟩
  simp only [next_rfc_number]
  rw [foldl_max_shift]
  omega

/-- Claim C10: the allocator always returns at least 2, and the branch
name `cmd_create` derives from it never begins with "000-" or "001-". -/
theorem next_rfc_number_ge_two (git_branches : List String)
    (rfcs_in_repo : List FsPath) (title : String) :
    2 ≤ next_rfc_number git_branches rfcs_in_repo ∧
    decide (List.take 4 (cmd_create_branch_name
        (next_rfc_number git_branches rfcs_in_repo) title).data
      = ['0', '0', '0', '-']) = false ∧
    decide (List.take 4 (cmd_create_branch_name
        (next_rfc_number git_branches rfcs_in_repo) title).data
      = ['0', '0', '1', '-']) = false := by
  have h2 : 2 ≤ next_rfc_number git_branches rfcs_in_repo := by
    have h := foldl_max_init ((rfcs_in_repo.map pathToString
      ++ git_branches).filterMap extractRfcNumber) 1
    simp only [next_rfc_number]
    omega
  refine ⟨h2, ?_, ?_⟩
  · rw [cmd_create_branch_name_data]
    exact decide_eq_false (take4_formatId3 h2 _).1
  · rw [cmd_create_branch_name_data]
    exact decide_eq_false (take4_formatId3 h2 _).2

/-- The slug transformation written as the spec words it (claim C7), for
comparison with the source's two sequential `replace` calls: each space
becomes a hyphen, each of the four punctuation characters is removed,
every other character passes through unchanged. -/
def specSlugChar (c : Char) : Option Char :=
  if c = ' ' then some '-'
  else if c = ',' ∨ c = '.' ∨ c = '?' ∨ c = '!' then none
  else some c

/-- The branch-name format as the spec words it (claim C7): the id
zero-padded to at least 3 digits, a hyphen, then the slug of the title. -/
def specBranchName (id0 : Nat) (title : String) : String :=
  String.mk (List.replicate (3 - (natRepr id0).length) '0' ++ natRepr id0
    ++ '-' :: title.data.filterMap specSlugChar)

theorem slug_filterMap (l : List Char) :
    ((l.map fun c => if c = ' ' then '-' else c).filter fun c =>
        !(c == ',' || c == '.' || c == '?' || c == '!'))
      = l.filterMap specSlugChar := by
  induction l with
  | nil => rfl
  | cons c t ih =>
    simp only [List.map_cons, List.filter_cons, List.filterMap_cons]
    by_cases h0 : c = ' '
    · subst h0
      simpa [specSlugChar] using ih
    · by_cases h1 : c = ','
      · subst h1
        simpa [specSlugChar] using ih
      · by_cases h2 : c = '.'
        · subst h2
          simpa [specSlugChar] using ih
        · by_cases h3 : c = '?'
          · subst h3
            simpa [specSlugChar] using ih
          · by_cases h4 : c = '!'
            · subst h4
              simpa [specSlugChar] using ih
            · simp [specSlugChar, h0, h1, h2, h3, h4]
              simpa using ih

/-- Claim C7: the branch name `cmd_create` builds equals the spec's
format — the id zero-padded to at least 3 digits, a hyphen, then the
title with spaces turned to hyphens and the four punctuation characters
removed; id 7 with title "Add metrics" gives "007-Add-metrics", and a
title of only removal-set punctuation leaves the trailing hyphen last. -/
theorem cmd_create_branch_name_follows_spec (id0 : Nat) (title : String) :
    cmd_create_branch_name id0 title = specBranchName id0 title ∧
    cmd_create_branch_name 7 "Add metrics" = "007-Add-metrics" ∧
    cmd_create_branch_name 42 "???" = "042-" ∧
    (cmd_create_branch_name 42 "???").data.getLast? = some '-' := by
  refine ⟨?_, by decide, by decide, by decide⟩
  apply String.ext
  rw [cmd_create_branch_name_data]
  show formatId3 id0 ++ '-' ::
      ((title.data.map fun c => if c = ' ' then '-' else c).filter fun c =>
        !(c == ',' || c == '.' || c == '?' || c == '!'))
    = (specBranchName id0 title).data
  rw [slug_filterMap]
  simp [specBranchName, formatId3]

theorem no_digit_of_allowed {ext : String}
    (hext : ext ∈ ["txt", "md", "markdown", "rst", "adoc", "org"]) :
    ∀ c ∈ ext.data, c.isDigit = false := by
  fin_cases hext <;> decide

/-- Claim C8: file-path strings and branch-name strings go through one
identical digit-run rule: appending a dot and a recognized extension to a
name never changes the extracted id, and the example file `007-x.md` and
branch `007-x` both yield id 7. -/
theorem id_extraction_shared_rule :
    (∀ name ext : String,
      ext ∈ ["txt", "md", "markdown", "rst", "adoc", "org"] →
      extractRfcNumber (pathToString ⟨[name ++ "." ++ ext]⟩)
        = extractRfcNumber name) ∧
    extractRfcNumber (pathToString ⟨["007-x.md"]⟩) = some 7 ∧
    extractRfcNumber "007-x" = some 7 := by
  refine ⟨fun name ext hext => ?_, by decide, by decide⟩
  have hps : pathToString ⟨[name ++ "." ++ ext]⟩ = name ++ "." ++ ext := rfl
  rw [hps, extractRfcNumber, extractRfcNumber]
  have hdata : (name ++ "." ++ ext).data = name.data ++ ('.' :: ext.data) := by
    rw [string_data_append, string_data_append]
    simp
  rw [hdata, firstRun3_append_nodigits]
  intro c hc
  rcases List.mem_cons.mp hc with rfl | hc2
  · rfl
  · exact no_digit_of_allowed hext c hc2

theorem files_in_rfc_repo_mem (walk : List (Except String FsPath))
    (p : FsPath) (res : List FsPath)
    (h : files_in_rfc_repo walk = Except.ok res) :
    p ∈ res ↔ Except.ok p ∈ walk ∧ file_is_text_document p = true ∧
      file_has_rfc_id p = true := by
  have hres : res = ((walk.filterMap fun entry =>
      match entry with
      | Except.ok q => some q
      | Except.error _ => none).filter
        fun f => file_is_text_document f).filter
        fun f => file_has_rfc_id f := by
    rw [files_in_rfc_repo] at h
    injection h with h'
    exact h'.symm
  subst hres
  simp only [List.mem_filter]
  constructor
  · rintro ⟨⟨hmem, hdoc⟩, hid⟩
    refine ⟨?_, hdoc, hid⟩
    rw [List.mem_filterMap] at hmem
    obtain ⟨a, ha, hfa⟩ := hmem
    cases a with
    | ok q => exact (Option.some.inj hfa) ▸ ha
    | error e => exact Option.noConfusion hfa
  · rintro ⟨hmem, hdoc, hid⟩
    exact ⟨⟨List.mem_filterMap.mpr ⟨Except.ok p, hmem, rfl⟩, hdoc⟩, hid⟩

theorem file_is_text_document_iff (p : FsPath) :
    file_is_text_document p = true ↔
      (pathExtension? p = some "txt" ∨ pathExtension? p = some "md" ∨
       pathExtension? p = some "markdown" ∨ pathExtension? p = some "rst" ∨
       pathExtension? p = some "adoc" ∨ pathExtension? p = some "org") := by
  cases hext : pathExtension? p with
  | none => simp [file_is_text_document, hext]
  | some e =>
    simp only [file_is_text_document, hext, Bool.or_eq_true, beq_iff_eq,
      Option.some.injEq]
    tauto

theorem file_has_rfc_id_iff (p : FsPath) :
    file_has_rfc_id p = true ↔
      ∃ nm : String, pathFileName? p = some nm ∧
        ∃ l1 l2 l3 : List Char, nm.data = l1 ++ l2 ++ l3 ∧
          3 ≤ l2.length ∧ ∀ c ∈ l2, isNdDigit c = true := by
  cases hnm : pathFileName? p with
  | none => simp [file_has_rfc_id, hnm]
  | some name => simp [file_has_rfc_id, hnm, firstRun3Nd_isSome_iff]

/-- Claim C5 as amended: the Document Scanner returns exactly the walked
paths whose extension is one of the six exact allow-listed strings and
whose file name contains a run of at least 3 consecutive Unicode decimal
digits (category Nd — the regex crate's `\d`; the spec's digit-run rule
says ASCII, which the code does not honour here); a path with extension
`sql` never appears in the output. -/
theorem scanner_output_exact (walk : List (Except String FsPath))
    (res : List FsPath) (p : FsPath)
    (h : files_in_rfc_repo walk = Except.ok res) :
    (p ∈ res ↔ Except.ok p ∈ walk ∧
      (pathExtension? p = some "txt" ∨ pathExtension? p = some "md" ∨
       pathExtension? p = some "markdown" ∨ pathExtension? p = some "rst" ∨
       pathExtension? p = some "adoc" ∨ pathExtension? p = some "org") ∧
      (∃ nm : String, pathFileName? p = some nm ∧
        ∃ l1 l2 l3 : List Char, nm.data = l1 ++ l2 ++ l3 ∧
          3 ≤ l2.length ∧ ∀ c ∈ l2, isNdDigit c = true)) ∧
    (pathExtension? p = some "sql" → p ∉ res) := by
  have hmem := files_in_rfc_repo_mem walk p res h
  constructor
  · rw [hmem, file_is_text_document_iff, file_has_rfc_id_iff]
  · intro hsql hmem2
    have hdoc := (hmem.mp hmem2).2.1
    rw [file_is_text_document_iff, hsql] at hdoc
    simp at hdoc

/-- Witness for C5 at a concrete tree: `001-a.md` is kept, and for the
path `91.sql` the extension `sql` excludes it. -/
theorem scanner_output_exact_witness :
    ((⟨["001-a.md"]⟩ : FsPath) ∈ [(⟨["001-a.md"]⟩ : FsPath)] ↔
      Except.ok (⟨["001-a.md"]⟩ : FsPath) ∈
          ([Except.ok ⟨["001-a.md"]⟩, Except.error "broken entry",
            Except.ok ⟨["091234.sql"]⟩] : List (Except String FsPath)) ∧
        (pathExtension? ⟨["001-a.md"]⟩ = some "txt" ∨
         pathExtension? ⟨["001-a.md"]⟩ = some "md" ∨
         pathExtension? ⟨["001-a.md"]⟩ = some "markdown" ∨
         pathExtension? ⟨["001-a.md"]⟩ = some "rst" ∨
         pathExtension? ⟨["001-a.md"]⟩ = some "adoc" ∨
         pathExtension? ⟨["001-a.md"]⟩ = some "org") ∧
        (∃ nm : String, pathFileName? (⟨["001-a.md"]⟩ : FsPath) = some nm ∧
          ∃ l1 l2 l3 : List Char, nm.data = l1 ++ l2 ++ l3 ∧
            3 ≤ l2.length ∧ ∀ c ∈ l2, isNdDigit c = true)) ∧
    (pathExtension? (⟨["091234.sql"]⟩ : FsPath) = some "sql" →
      (⟨["091234.sql"]⟩ : FsPath) ∉ [(⟨["001-a.md"]⟩ : FsPath)]) := by
  refine ⟨(scanner_output_exact
      [Except.ok ⟨["001-a.md"]⟩, Except.error "broken entry",
        Except.ok ⟨["091234.sql"]⟩]
      [⟨["001-a.md"]⟩] ⟨["001-a.md"]⟩ rfl).1,
    (scanner_output_exact
      [Except.ok ⟨["001-a.md"]⟩, Except.error "broken entry",
        Except.ok ⟨["091234.sql"]⟩]
      [⟨["001-a.md"]⟩] ⟨["091234.sql"]⟩ rfl).2⟩

/-- Counterexample to claim C5 as stated: the file name "٠١٢.md" (three
Arabic-Indic decimal digits U+0660..U+0662, category Nd) contains no ASCII
decimal digit at all — so no run of 3+ consecutive (ASCII) decimal digits
in the spec's digit-run sense — yet the scanner keeps the path: the
compiled regex's Unicode `\d` matches it. -/
theorem scanner_unicode_digits_counterexample :
    (∀ c ∈ ("٠١٢.md" : String).data, c.isDigit = false) ∧
    files_in_rfc_repo [Except.ok ⟨["٠١٢.md"]⟩]
      = Except.ok [⟨["٠١٢.md"]⟩] :=
  ⟨by decide, rfl⟩

/-- Counterexample to claim C6 as stated: when the root directory is
unreadable the walk yields a single error item, and `files_in_rfc_repo`
still returns `Ok` (with the empty list) — no error result reaches the
caller. -/
theorem scanner_root_error_returns_ok :
    files_in_rfc_repo [Except.error "permission denied reading root"]
      = Except.ok [] := rfl

/-- Claim C6 as amended: errors on individual walk entries are skipped
and traversal continues, but no error — not even an unreadable root —
surfaces to the caller: `files_in_rfc_repo` returns `Ok` on every input,
and its list holds exactly the ok-entries that pass both filters. -/
theorem scanner_never_fails (walk : List (Except String FsPath)) :
    ∃ res : List FsPath, files_in_rfc_repo walk = Except.ok res ∧
      ∀ p : FsPath, p ∈ res ↔ Except.ok p ∈ walk ∧
        file_is_text_document p = true ∧ file_has_rfc_id p = true :=
  ⟨_, rfl, fun p => files_in_rfc_repo_mem walk p _ rfl⟩

/-- Claim C3, evaluated at the failing inputs (the claim is right about
the intent, the code wrong): with only a local branch `master` the lookup
of `main` fails with `ErrorCode::NotFound`, which is not the
`ErrorCode::Exists` the code tests for, so `find_main_branch_head` bails
with "Unexpected git error" instead of falling back to `master`; with no
branch at all the same happens instead of the "no main branch" error; only
the `main`-exists case behaves as claimed. -/
theorem find_main_branch_head_not_found_bug :
    find_main_branch_head ⟨[("master", 5)], some "master", 5⟩
        = Except.error GitErr.unexpectedGit ∧
    find_main_branch_head ⟨[], none, 0⟩
        = Except.error GitErr.unexpectedGit ∧
    find_main_branch_head ⟨[("main", 7), ("master", 5)], some "main", 7⟩
        = Except.ok ("main", 7) :=
  ⟨rfl, rfl, rfl⟩

theorem find?_append_some {α : Type} {p : α → Bool} {l1 : List α} {x : α}
    (h : l1.find? p = some x) (l2 : List α) :
    (l1 ++ l2).find? p = some x := by
  rw [List.find?_append, h]
  rfl

/-- Claim C4: when the tree checkout fails after the branch ref was
created, `create_and_switch_to_branch` returns the checkout error but the
new branch ref exists in the resulting repository (no rollback), and a
second invocation with the same name fails with the branch-exists error,
leaving the repository unchanged. -/
theorem create_branch_no_rollback (repo : GitRepo) (branch_name : String)
    (mbn : String) (mbc : Nat)
    (hmain : find_branch repo "main" = Except.ok (mbn, mbc))
    (hnew : repo.branches.any (fun b => b.1 == branch_name) = false) :
    (create_and_switch_to_branch false repo branch_name).1
        = Except.error GitErr.checkoutFailed ∧
    (create_and_switch_to_branch false repo branch_name).2.branches.any
        (fun b => b.1 == branch_name) = true ∧
    ∀ checkoutOk : Bool,
      create_and_switch_to_branch checkoutOk
          (create_and_switch_to_branch false repo branch_name).2 branch_name
        = (Except.error GitErr.alreadyExists,
            (create_and_switch_to_branch false repo branch_name).2) := by
  have hfind : repo.branches.find? (fun b => b.1 == "main")
      = some (mbn, mbc) := by
    rw [find_branch] at hmain
    cases hf : repo.branches.find? (fun b => b.1 == "main") with
    | none =>
      rw [hf] at hmain
      exact Except.noConfusion hmain
    | some b =>
      rw [hf] at hmain
      injection hmain with hb
      rw [hb]
  have hhead : find_main_branch_head repo = Except.ok (mbn, mbc) := by
    rw [find_main_branch_head, find_branch, hfind]
  have hstep : create_and_switch_to_branch false repo branch_name
      = (Except.error GitErr.checkoutFailed,
          { repo with
              branches := repo.branches ++ [(branch_name, mbc)] }) := by
    rw [create_and_switch_to_branch, hhead]
    simp [hnew]
  rw [hstep]
  have hany : (repo.branches ++ [(branch_name, mbc)]).any
      (fun b => b.1 == branch_name) = true := by
    rw [List.any_append]
    simp
  refine ⟨rfl, hany, fun checkoutOk => ?_⟩
  have hhead1 : find_main_branch_head
      ({ repo with
          branches := repo.branches ++ [(branch_name, mbc)] } : GitRepo)
      = Except.ok (mbn, mbc) := by
    rw [find_main_branch_head, find_branch]
    rw [find?_append_some hfind]
  rw [create_and_switch_to_branch, hhead1]
  simp [hany]

/-- Witness for C4 at a concrete repository with branch `main`: checkout
failure leaves the ref `002-x` behind and the retry reports it exists. -/
theorem create_branch_no_rollback_witness :
    (create_and_switch_to_branch false ⟨[("main", 4)], some "main", 4⟩
        "002-x").1 = Except.error GitErr.checkoutFailed ∧
    (create_and_switch_to_branch false ⟨[("main", 4)], some "main", 4⟩
        "002-x").2.branches.any (fun b => b.1 == "002-x") = true ∧
    ∀ checkoutOk : Bool,
      create_and_switch_to_branch checkoutOk
          (create_and_switch_to_branch false ⟨[("main", 4)], some "main", 4⟩
            "002-x").2 "002-x"
        = (Except.error GitErr.alreadyExists,
            (create_and_switch_to_branch false
              ⟨[("main", 4)], some "main", 4⟩ "002-x").2) :=
  create_branch_no_rollback ⟨[("main", 4)], some "main", 4⟩ "002-x"
    "main" 4 rfl rfl

/-- Claim C9: `list_branches` keeps every enumerated branch: one whose
name failed UTF-8 decoding appears as the exact sentinel string, and one
with a valid short name appears under that name. -/
theorem list_branches_sentinel (entries : List (Except String BranchEnt))
    (b : BranchEnt) (hmem : Except.ok b ∈ entries) :
    (b.utf8Name = none →
      "<invalid utf-8 branch name>" ∈ list_branches entries) ∧
    ∀ nm : String, b.utf8Name = some nm → nm ∈ list_branches entries := by
  have hopt : b.utf8Name ∈ entries.filterMap fun r =>
      match r with
      | Except.ok branch => some branch.utf8Name
      | Except.error _ => none :=
    List.mem_filterMap.mpr ⟨Except.ok b, hmem, rfl⟩
  constructor
  · intro hnone
    refine List.mem_map.mpr ⟨b.utf8Name, hopt, ?_⟩
    rw [hnone]
    rfl
  · intro nm hnm
    refine List.mem_map.mpr ⟨b.utf8Name, hopt, ?_⟩
    rw [hnm]
    rfl

/-- Witness for C9: with one undecodable branch and one named `dev`, the
output holds the sentinel and `dev`. -/
theorem list_branches_sentinel_witness :
    "<invalid utf-8 branch name>"
        ∈ list_branches [Except.ok ⟨none⟩, Except.ok ⟨some "dev"⟩] ∧
    "dev" ∈ list_branches [Except.ok ⟨none⟩, Except.ok ⟨some "dev"⟩] :=
  ⟨(list_branches_sentinel [Except.ok ⟨none⟩, Except.ok ⟨some "dev"⟩]
      ⟨none⟩ (List.mem_cons_self _ _)).1 rfl,
   (list_branches_sentinel [Except.ok ⟨none⟩, Except.ok ⟨some "dev"⟩]
      ⟨some "dev"⟩
      (List.mem_cons_of_mem _ (List.mem_cons_self _ _))).2 "dev" rfl⟩

end Rfcs
